import Mathlib

/-!
Verification of the stream consumer-group benchmark (main.go, group-consumer.go).

The development shallowly embeds the program: the per-worker fetch/acknowledge
loop of groupConsumerRoutine becomes a step function on an explicit worker
state, the shared counters become a record threaded through steps, the
orchestration in main becomes event-trace producing functions, and the
reporter tick of updateCLI becomes a state-transforming function.  Wall-clock
times and latencies are abstracted as integers; network results (command
errors, XREADGROUP replies) are inputs to each step.
-/

set_option maxHeartbeats 1000000

namespace StreamCG

/-- Broker-assigned stream entry identifier (radix.StreamEntryID):
a timestamp and a per-timestamp sequence number, used by the program
only as an opaque handle to acknowledge. -/
structure StreamEntryID where
  time : Nat
  seq : Nat
deriving DecidableEq

/-- One entry inside an XREADGROUP reply (radix.StreamEntry); the program
only consumes its ID field. -/
structure StreamEntry where
  id : StreamEntryID
deriving DecidableEq

/-- One per-stream batch inside an XREADGROUP reply (radix.StreamEntries). -/
structure StreamEntries where
  entries : List StreamEntry
deriving DecidableEq

/-- The two package-level counters of main.go
(totalMessagesRead, totalMessagesAcked), incremented atomically by the
workers. -/
structure SharedState where
  totalMessagesRead : Nat
  totalMessagesAcked : Nat
deriving DecidableEq

/-- Construction arguments of an hdrhistogram (lowest and highest trackable
value, significant figures). -/
structure HistConfig where
  lowest : Int
  highest : Int
  sigfigs : Nat
deriving DecidableEq

/-- main.go line 48: readLatencies = hdrhistogram.New(1, 90000000, 3). -/
def readLatenciesConfig : HistConfig := ⟨1, 90000000, 3⟩

/-- main.go line 49: ackLatencies = hdrhistogram.New(1, 90000000, 3). -/
def ackLatenciesConfig : HistConfig := ⟨1, 90000000, 3⟩

/-- Modelled from the spec: RecordValue of the external hdrhistogram-go
library (not part of this repository's sources) succeeds exactly when the
recorded value lies inside the histogram's trackable domain; per the spec,
recording "fails (fatal) if microseconds falls outside [1, 90,000,000]".
Returns true on success, false when RecordValue returns an error. -/
def recordValue (cfg : HistConfig) (v : Int) : Bool :=
  cfg.lowest ≤ v && v ≤ cfg.highest

/-- Per-worker state of groupConsumerRoutine: ids is the pending window
slice, done the exhaustion flag.  fetchLog and ackLog are ghost histories
(not variables of the source) recording the identifiers in the order they
were fetched and acknowledged, used to state the FIFO ordering claims. -/
structure WorkerState where
  ids : List StreamEntryID
  done : Bool
  fetchLog : List StreamEntryID
  ackLog : List StreamEntryID
deriving DecidableEq

/-- Worker state at the top of groupConsumerRoutine (group-consumer.go
lines 19-20): empty window, not done. -/
def initWorker : WorkerState :=
  { ids := [], done := false, fetchLog := [], ackLog := [] }

/-- Which branch of the loop body of groupConsumerRoutine (lines 32-72) a
given iteration takes: the select stop case, the fetch branch
(len(ids) < pcount && !done), the acknowledge branch (len(ids) > 0), or
the final return. -/
inductive Branch where
  | stop
  | fetch
  | ack
  | finish
deriving DecidableEq

def workerBranch (pcount : Int) (w : WorkerState) (stopObserved : Bool) : Branch :=
  if stopObserved then .stop
  else if (w.ids.length : Int) < pcount ∧ w.done = false then .fetch
  else if 0 < w.ids.length then .ack
  else .finish

/-- The identifier access entries[0].Entries[0].ID of group-consumer.go
line 53; none models the index-out-of-range panic raised when the reply's
first batch carries no entry. -/
def extractFirstID (resp : List StreamEntries) : Option StreamEntryID :=
  match resp with
  | [] => none
  | batch :: _ =>
      match batch.entries with
      | [] => none
      | e :: _ => some e.id

/-- Outcome of one loop iteration of groupConsumerRoutine. -/
inductive StepOut where
  /-- The loop continues with updated worker and shared state. -/
  | next (w : WorkerState) (sh : SharedState)
  /-- Return via the select stop case (line 34-35). -/
  | retStop
  /-- Return via the final else branch (line 70-71). -/
  | retDone
  /-- log.Fatal / log.Fatalf: process terminates. -/
  | fatalErr
  /-- Index-out-of-range panic on entries[0].Entries[0]. -/
  | panicOOB
deriving DecidableEq

/-- One iteration of the loop of groupConsumerRoutine (group-consumer.go
lines 32-74).  stopObserved is whether the select sees the closed stop
channel; cmdErr whether conn.Do returns an error for the command issued this
iteration; resp the XREADGROUP reply when the fetch branch runs; latUs the
measured latency in microseconds of the command issued this iteration. -/
def workerStep (pcount : Int) (w : WorkerState) (sh : SharedState)
    (stopObserved cmdErr : Bool) (resp : List StreamEntries) (latUs : Int) :
    StepOut :=
  match workerBranch pcount w stopObserved with
  | .stop => .retStop
  | .fetch =>
      if cmdErr then .fatalErr
      else if recordValue readLatenciesConfig latUs = false then .fatalErr
      else if resp.length = 0 then .next { w with done := true } sh
      else
        match extractFirstID resp with
        | none => .panicOOB
        | some id =>
            .next { w with ids := w.ids ++ [id], fetchLog := w.fetchLog ++ [id] }
              { sh with totalMessagesRead := sh.totalMessagesRead + 1 }
  | .ack =>
      match w.ids with
      | [] => .panicOOB
      | id :: rest =>
          if cmdErr then .fatalErr
          else if recordValue ackLatenciesConfig latUs = false then .fatalErr
          else .next { w with ids := rest, ackLog := w.ackLog ++ [id] }
            { sh with totalMessagesAcked := sh.totalMessagesAcked + 1 }
  | .finish => .retDone

/-- Global run state: the states of the spawned workers plus the shared
counters. -/
structure GlobalState where
  workers : List WorkerState
  shared : SharedState
deriving DecidableEq

/-- State right after main spawned n workers: every worker fresh, both
counters zero (main.go lines 46-47, 84-88). -/
def initGlobal (n : Nat) : GlobalState :=
  { workers := List.replicate n initWorker
    shared := { totalMessagesRead := 0, totalMessagesAcked := 0 } }

/-- Interleaving step of the run: some worker i performs one loop iteration
that continues (the terminating outcomes leave the global state unchanged). -/
inductive GStep (pcount : Int) (gs : GlobalState) : GlobalState → Prop where
  | step (i : Nat) (hi : i < gs.workers.length)
      (stopObserved cmdErr : Bool) (resp : List StreamEntries) (latUs : Int)
      (w' : WorkerState) (sh' : SharedState)
      (h : workerStep pcount (gs.workers.get ⟨i, hi⟩) gs.shared
        stopObserved cmdErr resp latUs = .next w' sh') :
      GStep pcount gs { workers := gs.workers.set i w', shared := sh' }

/-- States reachable in a run with n workers and window capacity pcount. -/
inductive Reachable (n : Nat) (pcount : Int) : GlobalState → Prop where
  | init : Reachable n pcount (initGlobal n)
  | step (gs gs' : GlobalState) (h1 : Reachable n pcount gs)
      (h2 : GStep pcount gs gs') : Reachable n pcount gs'

/-- Sum of a per-worker measure over all workers. -/
def sumBy (l : List WorkerState) (f : WorkerState → Nat) : Nat :=
  (l.map f).sum

/-- Inductive invariant of a run: the read counter counts the fetched
identifiers, the acked counter counts the acknowledged identifiers, and per
worker the acknowledged history followed by the pending window equals the
fetched history. -/
def Inv (gs : GlobalState) : Prop :=
  gs.shared.totalMessagesRead = sumBy gs.workers (fun w => w.fetchLog.length) ∧
  gs.shared.totalMessagesAcked = sumBy gs.workers (fun w => w.ackLog.length) ∧
  ∀ w ∈ gs.workers, w.ackLog ++ w.ids = w.fetchLog

/-- State of updateCLI between ticks (main.go lines 138-141): tick times are
abstracted as naturals; a rate-series entry is kept as the pair
(message-count delta, elapsed time) whose quotient the source stores as the
float messageRate. -/
structure ReporterState where
  start : Nat
  prevTime : Nat
  prevMessageCount : Nat
  messageRateTs : List (Nat × Nat)
deriving DecidableEq

/-- updateCLI local state before the first tick. -/
def initReporter : ReporterState :=
  { start := 0, prevTime := 0, prevMessageCount := 0, messageRateTs := [] }

/-- One timer tick of updateCLI (main.go lines 149-165): now is the tick
time, totalRead the value of totalMessagesRead observed at the tick. -/
def reporterTick (st : ReporterState) (now totalRead : Nat) : ReporterState :=
  let took := now - st.prevTime
  let rateEntry := (totalRead - st.prevMessageCount, took)
  let start' := if st.prevMessageCount = 0 ∧ totalRead ≠ 0 then now else st.start
  let ts' := if totalRead ≠ 0 then st.messageRateTs ++ [rateEntry]
             else st.messageRateTs
  { start := start'
    prevTime := now
    prevMessageCount := totalRead
    messageRateTs := ts' }

/-- A sequence of reporter ticks, each given as (tick time, observed
totalMessagesRead). -/
def reporterRun (st : ReporterState) (ticks : List (Nat × Nat)) : ReporterState :=
  ticks.foldl (fun s t => reporterTick s t.1 t.2) st

/-- Observable actions of main before and at worker spawn time. -/
inductive MainEvent where
  | queryXlen
  | xgroupDestroy
  | xgroupCreate
  | spawnWorker (i : Nat)
  | fatalAbort
deriving DecidableEq

/-- main.go lines 67-88 once the target count is resolved: XGROUP DESTROY
(log.Fatal on error), XGROUP CREATE (log.Fatal on error), then spawn
consumers 1..n.  Yields the event trace so far and the resolved target
(none when the run aborted). -/
def mainAfterTarget (pre : List MainEvent) (target : Nat)
    (destroyErr createErr : Bool) (n : Nat) : List MainEvent × Option Nat :=
  if destroyErr then (pre ++ [.xgroupDestroy, .fatalAbort], none)
  else if createErr then (pre ++ [.xgroupDestroy, .xgroupCreate, .fatalAbort], none)
  else (pre ++ [.xgroupDestroy, .xgroupCreate]
          ++ (List.range n).map (fun i => .spawnWorker (i + 1)), some target)

/-- main.go lines 59-88: when message_count is 0 the target is taken from
XLEN on the stream key (log.Fatal on error), otherwise the configured count
is used; then the group is reset and the workers are spawned. -/
def mainSetup (messageCount : Nat) (xlenErr : Bool) (xlenValue : Nat)
    (destroyErr createErr : Bool) (n : Nat) : List MainEvent × Option Nat :=
  if messageCount = 0 then
    if xlenErr then ([.queryXlen, .fatalAbort], none)
    else mainAfterTarget [.queryXlen] xlenValue destroyErr createErr n
  else mainAfterTarget [] messageCount destroyErr createErr n

/-- Observable actions of main after updateCLI returns. -/
inductive EndEvent where
  | emitReport
  | writeJson
  | closeStopChan
  | waitWorkers
deriving DecidableEq

/-- main.go lines 99-134: emit the final report and latency summaries,
optionally write the JSON file, then — unless the reporter returned closed
(Ctrl-C) — close stopChan and wait on the WaitGroup. -/
def mainShutdown (closed jsonRequested : Bool) : List EndEvent :=
  [.emitReport] ++ (if jsonRequested then [.writeJson] else [])
    ++ (if closed then [] else [.closeStopChan, .waitWorkers])

/-- A sample XREADGROUP reply carrying one entry with identifier 1-1. -/
def sampleResp : List StreamEntries := [⟨[⟨⟨1, 1⟩⟩]⟩]

/-- Worker state after fetching the sample entry. -/
def w1 : WorkerState :=
  { ids := [⟨1, 1⟩], done := false, fetchLog := [⟨1, 1⟩], ackLog := [] }

/-- Worker state after additionally acknowledging the sample entry. -/
def w2 : WorkerState :=
  { ids := [], done := false, fetchLog := [⟨1, 1⟩], ackLog := [⟨1, 1⟩] }

/-- Global state of a one-worker run after one fetch. -/
def gs1 : GlobalState :=
  { workers := [w1], shared := { totalMessagesRead := 1, totalMessagesAcked := 0 } }

/-- Global state of a one-worker run after one fetch and one acknowledge. -/
def gs2 : GlobalState :=
  { workers := [w2], shared := { totalMessagesRead := 1, totalMessagesAcked := 1 } }

/-! ## Helper lemmas -/

theorem workerBranch_eq_stop (pcount : Int) (w : WorkerState) (so : Bool) :
    workerBranch pcount w so = .stop ↔ so = true := by
  unfold workerBranch
  split_ifs <;> simp_all

theorem workerBranch_eq_fetch (pcount : Int) (w : WorkerState) (so : Bool) :
    workerBranch pcount w so = .fetch ↔
      so = false ∧ (w.ids.length : Int) < pcount ∧ w.done = false := by
  unfold workerBranch
  split_ifs <;> simp_all

theorem workerBranch_eq_ack (pcount : Int) (w : WorkerState) (so : Bool) :
    workerBranch pcount w so = .ack ↔
      so = false ∧ ¬((w.ids.length : Int) < pcount ∧ w.done = false) ∧
        0 < w.ids.length := by
  unfold workerBranch
  split_ifs <;> simp_all

theorem workerBranch_eq_finish (pcount : Int) (w : WorkerState) (so : Bool) :
    workerBranch pcount w so = .finish ↔
      so = false ∧ ¬((w.ids.length : Int) < pcount ∧ w.done = false) ∧
        w.ids.length = 0 := by
  unfold workerBranch
  split_ifs with h1 h2 h3
  · simp_all
  · simp_all
  · constructor
    · intro hc; exact absurd hc (by simp)
    · rintro ⟨-, -, hlen⟩; omega
  · constructor
    · intro _
      refine ⟨by simp_all, h2, by omega⟩
    · intro _; rfl

theorem workerStep_eq_stop (pcount : Int) (w : WorkerState) (sh : SharedState)
    (so ce : Bool) (resp : List StreamEntries) (lat : Int)
    (hb : workerBranch pcount w so = .stop) :
    workerStep pcount w sh so ce resp lat = .retStop := by
  unfold workerStep; rw [hb]

theorem workerStep_eq_finish (pcount : Int) (w : WorkerState) (sh : SharedState)
    (so ce : Bool) (resp : List StreamEntries) (lat : Int)
    (hb : workerBranch pcount w so = .finish) :
    workerStep pcount w sh so ce resp lat = .retDone := by
  unfold workerStep; rw [hb]

theorem workerStep_eq_fetch (pcount : Int) (w : WorkerState) (sh : SharedState)
    (so ce : Bool) (resp : List StreamEntries) (lat : Int)
    (hb : workerBranch pcount w so = .fetch) :
    workerStep pcount w sh so ce resp lat =
      (if ce = true then .fatalErr
       else if recordValue readLatenciesConfig lat = false then .fatalErr
       else if resp.length = 0 then .next { w with done := true } sh
       else
         match extractFirstID resp with
         | none => .panicOOB
         | some id =>
             .next { w with ids := w.ids ++ [id], fetchLog := w.fetchLog ++ [id] }
               { sh with totalMessagesRead := sh.totalMessagesRead + 1 }) := by
  unfold workerStep; rw [hb]

theorem workerStep_eq_ack (pcount : Int) (w : WorkerState) (sh : SharedState)
    (so ce : Bool) (resp : List StreamEntries) (lat : Int)
    (id : StreamEntryID) (rest : List StreamEntryID) (hids : w.ids = id :: rest)
    (hb : workerBranch pcount w so = .ack) :
    workerStep pcount w sh so ce resp lat =
      (if ce = true then .fatalErr
       else if recordValue ackLatenciesConfig lat = false then .fatalErr
       else .next { w with ids := rest, ackLog := w.ackLog ++ [id] }
         { sh with totalMessagesAcked := sh.totalMessagesAcked + 1 }) := by
  unfold workerStep; rw [hb, hids]

/-- Inversion of the continuing outcomes of a worker iteration: either the
fetch branch marked exhaustion (empty reply), or the fetch branch appended
one fetched identifier and bumped the read counter, or the acknowledge
branch removed the window head and bumped the acked counter. -/
theorem workerStep_next_cases (pcount : Int) (w : WorkerState) (sh : SharedState)
    (so ce : Bool) (resp : List StreamEntries) (lat : Int)
    (w' : WorkerState) (sh' : SharedState)
    (h : workerStep pcount w sh so ce resp lat = .next w' sh') :
    (w' = { w with done := true } ∧ sh' = sh ∧
      workerBranch pcount w so = .fetch ∧ resp.length = 0) ∨
    (∃ id, w' = { w with ids := w.ids ++ [id], fetchLog := w.fetchLog ++ [id] } ∧
      sh' = { sh with totalMessagesRead := sh.totalMessagesRead + 1 } ∧
      workerBranch pcount w so = .fetch ∧ extractFirstID resp = some id) ∨
    (∃ id rest, w.ids = id :: rest ∧
      w' = { w with ids := rest, ackLog := w.ackLog ++ [id] } ∧
      sh' = { sh with totalMessagesAcked := sh.totalMessagesAcked + 1 } ∧
      workerBranch pcount w so = .ack) := by
  cases hb : workerBranch pcount w so with
  | stop =>
      rw [workerStep_eq_stop pcount w sh so ce resp lat hb] at h
      exact StepOut.noConfusion h
  | fetch =>
      rw [workerStep_eq_fetch pcount w sh so ce resp lat hb] at h
      by_cases hce : ce = true
      · rw [if_pos hce] at h
        exact StepOut.noConfusion h
      · rw [if_neg hce] at h
        by_cases hrec : recordValue readLatenciesConfig lat = false
        · rw [if_pos hrec] at h
          exact StepOut.noConfusion h
        · rw [if_neg hrec] at h
          by_cases hlen : resp.length = 0
          · rw [if_pos hlen] at h
            left
            simp only [StepOut.next.injEq] at h
            exact ⟨h.1.symm, h.2.symm, rfl, hlen⟩
          · rw [if_neg hlen] at h
            cases hx : extractFirstID resp with
            | none =>
                rw [hx] at h
                exact StepOut.noConfusion h
            | some id =>
                rw [hx] at h
                simp only [StepOut.next.injEq] at h
                exact .inr (.inl ⟨id, h.1.symm, h.2.symm, rfl, rfl⟩)
  | ack =>
      have ha := (workerBranch_eq_ack pcount w so).mp hb
      cases hid : w.ids with
      | nil => rw [hid] at ha; simp at ha
      | cons id rest =>
          rw [workerStep_eq_ack pcount w sh so ce resp lat id rest hid hb] at h
          by_cases hce : ce = true
          · rw [if_pos hce] at h
            exact StepOut.noConfusion h
          · rw [if_neg hce] at h
            by_cases hrec : recordValue ackLatenciesConfig lat = false
            · rw [if_pos hrec] at h
              exact StepOut.noConfusion h
            · rw [if_neg hrec] at h
              simp only [StepOut.next.injEq] at h
              exact .inr (.inr ⟨id, rest, rfl, h.1.symm, h.2.symm, rfl⟩)
  | finish =>
      rw [workerStep_eq_finish pcount w sh so ce resp lat hb] at h
      exact StepOut.noConfusion h

theorem sumBy_cons (a : WorkerState) (l : List WorkerState)
    (f : WorkerState → Nat) : sumBy (a :: l) f = f a + sumBy l f := by
  simp [sumBy]

theorem sumBy_set (f : WorkerState → Nat) (l : List WorkerState) :
    ∀ (i : Nat) (hi : i < l.length) (x : WorkerState),
      sumBy (l.set i x) f + f (l.get ⟨i, hi⟩) = sumBy l f + f x := by
  induction l with
  | nil => intro i hi x; exact absurd hi (by simp)
  | cons a as ih =>
      intro i hi x
      cases i with
      | zero => simp [sumBy_cons]; omega
      | succ j =>
          have hj : j < as.length := by simpa using hi
          have := ih j hj x
          simp only [List.set, sumBy_cons, List.get]
          omega

theorem sumBy_replicate (n : Nat) (w : WorkerState) (f : WorkerState → Nat) :
    sumBy (List.replicate n w) f = n * f w := by
  induction n with
  | zero => simp [sumBy]
  | succ m ih => rw [List.replicate_succ, sumBy_cons, ih]; ring

theorem inv_init (n : Nat) : Inv (initGlobal n) := by
  refine ⟨?_, ?_, ?_⟩
  · simp [initGlobal, sumBy_replicate, initWorker]
  · simp [initGlobal, sumBy_replicate, initWorker]
  · intro w hw
    have : w = initWorker := List.eq_of_mem_replicate hw
    simp [this, initWorker]

theorem inv_preserved (pcount : Int) (gs gs' : GlobalState)
    (hinv : Inv gs) (hstep : GStep pcount gs gs') : Inv gs' := by
  cases hstep with
  | step i hi so ce resp lat w' sh' h =>
    obtain ⟨hread, hacked, hfifo⟩ := hinv
    have hmem : gs.workers.get ⟨i, hi⟩ ∈ gs.workers :=
      List.get_mem gs.workers i hi
    have hfifo_i := hfifo (gs.workers.get ⟨i, hi⟩) hmem
    have hcases := workerStep_next_cases pcount (gs.workers.get ⟨i, hi⟩)
      gs.shared so ce resp lat w' sh' h
    have hsetF := sumBy_set (fun w => w.fetchLog.length) gs.workers i hi w'
    have hsetA := sumBy_set (fun w => w.ackLog.length) gs.workers i hi w'
    rcases hcases with ⟨hw', hsh', -, -⟩ | ⟨id, hw', hsh', -, -⟩ |
        ⟨id, rest, hids, hw', hsh', -⟩
    · have hfw' : w'.fetchLog.length = (gs.workers.get ⟨i, hi⟩).fetchLog.length := by
        rw [hw']
      have haw' : w'.ackLog.length = (gs.workers.get ⟨i, hi⟩).ackLog.length := by
        rw [hw']
      refine ⟨by rw [hsh']; simp only; omega, by rw [hsh']; simp only; omega, ?_⟩
      intro w hw
      rcases List.mem_or_eq_of_mem_set hw with hmem' | heq
      · exact hfifo w hmem'
      · rw [heq, hw']
        exact hfifo_i
    · have hfw' : w'.fetchLog.length = (gs.workers.get ⟨i, hi⟩).fetchLog.length + 1 := by
        rw [hw']; simp
      have haw' : w'.ackLog.length = (gs.workers.get ⟨i, hi⟩).ackLog.length := by
        rw [hw']
      refine ⟨by rw [hsh']; simp only; omega, by rw [hsh']; simp only; omega, ?_⟩
      intro w hw
      rcases List.mem_or_eq_of_mem_set hw with hmem' | heq
      · exact hfifo w hmem'
      · rw [heq, hw']
        simp only
        rw [← List.append_assoc, hfifo_i]
    · have hfw' : w'.fetchLog.length = (gs.workers.get ⟨i, hi⟩).fetchLog.length := by
        rw [hw']
      have haw' : w'.ackLog.length = (gs.workers.get ⟨i, hi⟩).ackLog.length + 1 := by
        rw [hw']; simp
      refine ⟨by rw [hsh']; simp only; omega, by rw [hsh']; simp only; omega, ?_⟩
      intro w hw
      rcases List.mem_or_eq_of_mem_set hw with hmem' | heq
      · exact hfifo w hmem'
      · rw [heq, hw']
        simp only
        rw [List.append_assoc, List.singleton_append, ← hids]
        exact hfifo_i

theorem reachable_inv (n : Nat) (pcount : Int) (gs : GlobalState)
    (h : Reachable n pcount gs) : Inv gs := by
  induction h with
  | init => exact inv_init n
  | step gs gs' h1 h2 ih => exact inv_preserved pcount gs gs' ih h2

theorem sumBy_le_sumBy (l : List WorkerState) (f g : WorkerState → Nat)
    (h : ∀ w ∈ l, f w ≤ g w) : sumBy l f ≤ sumBy l g := by
  induction l with
  | nil => simp [sumBy]
  | cons a as ih =>
      rw [sumBy_cons, sumBy_cons]
      have h1 := h a (by simp)
      have h2 := ih (fun w hw => h w (by simp [hw]))
      omega

/-- With a nonnegative capacity, every reachable worker window respects the
capacity bound. -/
theorem windows_bounded (n : Nat) (pcount : Int) (gs : GlobalState)
    (hp : 0 ≤ pcount) (h : Reachable n pcount gs) :
    ∀ w ∈ gs.workers, (w.ids.length : Int) ≤ pcount := by
  induction h with
  | init =>
      intro w hw
      have hw' : w = initWorker := List.eq_of_mem_replicate hw
      rw [hw']
      simpa [initWorker] using hp
  | step gs gs' h1 h2 ih =>
      cases h2 with
      | step i hi so ce resp lat w' sh' hst =>
          intro w hw
          rcases List.mem_or_eq_of_mem_set hw with hm | heq
          · exact ih w hm
          · rw [heq]
            have hwi := ih (gs.workers.get ⟨i, hi⟩) (List.get_mem gs.workers i hi)
            rcases workerStep_next_cases pcount (gs.workers.get ⟨i, hi⟩) gs.shared
                so ce resp lat w' sh' hst with
              ⟨hw', -, -, -⟩ | ⟨id, hw', -, hb, -⟩ | ⟨id, rest, hids, hw', -, -⟩
            · rw [hw']
              exact hwi
            · have hlt := ((workerBranch_eq_fetch pcount
                (gs.workers.get ⟨i, hi⟩) so).mp hb).2.1
              rw [hw']
              simp only [List.length_append, List.length_cons, List.length_nil]
              push_cast
              omega
            · rw [hw']
              simp only
              rw [hids] at hwi
              simp only [List.length_cons] at hwi
              push_cast at hwi ⊢
              omega

/-- A worker iteration returns DONE only from the final else branch. -/
theorem workerStep_retDone_branch (pcount : Int) (w : WorkerState)
    (sh : SharedState) (so ce : Bool) (resp : List StreamEntries) (lat : Int)
    (h : workerStep pcount w sh so ce resp lat = .retDone) :
    workerBranch pcount w so = .finish := by
  cases hb : workerBranch pcount w so with
  | stop =>
      rw [workerStep_eq_stop pcount w sh so ce resp lat hb] at h
      exact StepOut.noConfusion h
  | fetch =>
      rw [workerStep_eq_fetch pcount w sh so ce resp lat hb] at h
      by_cases hce : ce = true
      · rw [if_pos hce] at h
        exact StepOut.noConfusion h
      · rw [if_neg hce] at h
        by_cases hrec : recordValue readLatenciesConfig lat = false
        · rw [if_pos hrec] at h
          exact StepOut.noConfusion h
        · rw [if_neg hrec] at h
          by_cases hlen : resp.length = 0
          · rw [if_pos hlen] at h
            exact StepOut.noConfusion h
          · rw [if_neg hlen] at h
            cases hx : extractFirstID resp with
            | none => rw [hx] at h; exact StepOut.noConfusion h
            | some id => rw [hx] at h; exact StepOut.noConfusion h
  | ack =>
      have ha := (workerBranch_eq_ack pcount w so).mp hb
      cases hid : w.ids with
      | nil => rw [hid] at ha; simp at ha
      | cons id rest =>
          rw [workerStep_eq_ack pcount w sh so ce resp lat id rest hid hb] at h
          by_cases hce : ce = true
          · rw [if_pos hce] at h
            exact StepOut.noConfusion h
          · rw [if_neg hce] at h
            by_cases hrec : recordValue ackLatenciesConfig lat = false
            · rw [if_pos hrec] at h
              exact StepOut.noConfusion h
            · rw [if_neg hrec] at h
              exact StepOut.noConfusion h
  | finish => rfl

theorem gs1_reachable : Reachable 1 1 gs1 := by
  have heq : gs1 = { workers := (initGlobal 1).workers.set 0 w1,
                     shared := { totalMessagesRead := 1, totalMessagesAcked := 0 } } := by
    decide
  rw [heq]
  exact Reachable.step _ _ Reachable.init
    (GStep.step 0 (by decide) false false sampleResp 5 w1
      { totalMessagesRead := 1, totalMessagesAcked := 0 } (by decide))

theorem gs2_reachable : Reachable 1 1 gs2 := by
  have heq : gs2 = { workers := gs1.workers.set 0 w2,
                     shared := { totalMessagesRead := 1, totalMessagesAcked := 1 } } := by
    decide
  rw [heq]
  exact Reachable.step _ _ gs1_reachable
    (GStep.step 0 (by decide) false false [] 5 w2
      { totalMessagesRead := 1, totalMessagesAcked := 1 } (by decide))

/-- Over any tick sequence, the rate series grows by exactly one entry per
tick at which the observed fetched count is nonzero. -/
theorem reporterRun_ts_length (ticks : List (Nat × Nat)) :
    ∀ st : ReporterState, (reporterRun st ticks).messageRateTs.length =
      st.messageRateTs.length + (ticks.filter (fun t => t.2 != 0)).length := by
  induction ticks with
  | nil => intro st; simp [reporterRun]
  | cons t ts ih =>
      intro st
      have hrun : reporterRun st (t :: ts) =
          reporterRun (reporterTick st t.1 t.2) ts := rfl
      rw [hrun, ih]
      by_cases hz : t.2 = 0
      · have hts : (reporterTick st t.1 t.2).messageRateTs = st.messageRateTs := by
          unfold reporterTick
          simp [hz]
        rw [hts]
        simp [List.filter_cons, hz]
      · have hts : (reporterTick st t.1 t.2).messageRateTs =
            st.messageRateTs ++ [(t.2 - st.prevMessageCount, t.1 - st.prevTime)] := by
          unfold reporterTick
          simp [hz]
        rw [hts]
        simp [List.filter_cons, hz]
        omega

/-! ## Claim theorems -/

/-- Claim C1 counterexample: with configured message count 5, an error
returned by the XGROUP DESTROY call, and an XGROUP CREATE call that would
succeed, main does not continue to the create step: the trace stops at the
destroy with a fatal abort, no worker is spawned and no target is resolved
— refuting that destroy failures are ignored. -/
theorem destroy_error_aborts_run :
    mainSetup 5 false 0 true false 1 =
      ([MainEvent.xgroupDestroy, MainEvent.fatalAbort], none) := by
  decide

/-- Claim C1 (amended): during the consumer-group reset, a failure of the
destroy step is fatal exactly like a failure of the create step: whenever
XGROUP DESTROY or XGROUP CREATE returns an error (the XLEN query, when
taken, having succeeded), main aborts fatally before spawning any
worker. -/
theorem reset_step_errors_are_fatal (mc xv n : Nat) (de ce : Bool)
    (h : de = true ∨ ce = true) :
    (mainSetup mc false xv de ce n).2 = none ∧
    MainEvent.fatalAbort ∈ (mainSetup mc false xv de ce n).1 ∧
    ∀ i, MainEvent.spawnWorker i ∉ (mainSetup mc false xv de ce n).1 := by
  unfold mainSetup mainAfterTarget
  rcases h with h | h
  · subst h
    by_cases hmc : mc = 0 <;> simp [hmc]
  · subst h
    by_cases hmc : mc = 0 <;> by_cases hde : de = true <;> simp [hmc, hde]

/-- Witness for the amended claim C1 at a concrete input. -/
theorem reset_step_errors_are_fatal_witness :
    (true = true ∨ false = true) ∧
    ((mainSetup 7 false 0 true false 2).2 = none ∧
     MainEvent.fatalAbort ∈ (mainSetup 7 false 0 true false 2).1 ∧
     ∀ i, MainEvent.spawnWorker i ∉ (mainSetup 7 false 0 true false 2).1) :=
  ⟨Or.inl rfl, reset_step_errors_are_fatal 7 0 2 true false (Or.inl rfl)⟩

/-- Claim C7: after the reporter returns, the final report is emitted
first in every case; when the reporter returned closed (externally
cancelled) main returns without closing the stop channel and without
waiting on the WaitGroup; otherwise it closes the stop channel and then
blocks on the WaitGroup, in that order, at the very end of the run. -/
theorem shutdown_after_report (closed jsonRequested : Bool) :
    (mainShutdown closed jsonRequested).head? = some .emitReport ∧
    (closed = true → EndEvent.closeStopChan ∉ mainShutdown closed jsonRequested ∧
      EndEvent.waitWorkers ∉ mainShutdown closed jsonRequested) ∧
    (closed = false → ∃ pre, mainShutdown closed jsonRequested =
      pre ++ [EndEvent.closeStopChan, EndEvent.waitWorkers]) := by
  refine ⟨?_, ?_, ?_⟩
  · cases closed <;> cases jsonRequested <;> rfl
  · intro hc
    subst hc
    cases jsonRequested <;> exact ⟨by decide, by decide⟩
  · intro hc
    subst hc
    cases jsonRequested
    · exact ⟨[.emitReport], rfl⟩
    · exact ⟨[.emitReport, .writeJson], rfl⟩

/-- Witness for claim C7 at concrete inputs: a cancelled run does not
close the stop channel, a completed run ends with close-then-wait. -/
theorem shutdown_after_report_witness :
    EndEvent.closeStopChan ∉ mainShutdown true true ∧
    ∃ pre, mainShutdown false true =
      pre ++ [EndEvent.closeStopChan, EndEvent.waitWorkers] :=
  ⟨((shutdown_after_report true true).2.1 rfl).1,
    (shutdown_after_report false true).2.2 rfl⟩

/-- Claim C8: on an error-free setup, when the configured message count is
0 the target is resolved to the XLEN reply and the XLEN query precedes
every worker spawn in the event trace; a nonzero configured count is used
unchanged and no XLEN query is issued. -/
theorem target_resolution (mc xv n : Nat) :
    (mainSetup mc false xv false false n).1 =
      (if mc = 0 then [MainEvent.queryXlen] else []) ++
        ([MainEvent.xgroupDestroy, MainEvent.xgroupCreate] ++
          (List.range n).map (fun i => MainEvent.spawnWorker (i + 1))) ∧
    (mainSetup mc false xv false false n).2 =
      some (if mc = 0 then xv else mc) := by
  by_cases hmc : mc = 0 <;> simp [mainSetup, mainAfterTarget, hmc]

/-- Claim C2 counterexample: starting from the initial reporter state, on
the first tick at which the observed fetched count is nonzero (tick time 1,
5 messages fetched) the code resets startTime to the tick time AND appends
a rate-series entry: the series has length 1 after that tick, while the
claim requires no entry to be appended there. -/
theorem first_nonzero_tick_appends :
    (reporterTick initReporter 1 5).start = 1 ∧
    (reporterTick initReporter 1 5).messageRateTs.length = 1 := by
  decide

/-- Claim C2 (amended): on the first tick with nonzero observed fetched
count the reporter resets startTime to the tick time and does append a
rate-series entry; consequently the final rate-series length equals the
number of reporting ticks at which the observed fetched count is nonzero —
the ticks from the first nonzero tick onward, that first tick included. -/
theorem rate_series_counts_nonzero_ticks (ticks : List (Nat × Nat))
    (st : ReporterState) (now totalRead : Nat)
    (hprev : st.prevMessageCount = 0) (hnz : totalRead ≠ 0) :
    (reporterRun initReporter ticks).messageRateTs.length =
      (ticks.filter (fun t => t.2 != 0)).length ∧
    (reporterTick st now totalRead).start = now ∧
    (reporterTick st now totalRead).messageRateTs =
      st.messageRateTs ++ [(totalRead - st.prevMessageCount, now - st.prevTime)] := by
  refine ⟨?_, ?_, ?_⟩
  · rw [reporterRun_ts_length ticks initReporter]
    simp [initReporter]
  · unfold reporterTick
    simp [hprev, hnz]
  · unfold reporterTick
    simp [hnz]

/-- Witness for the amended claim C2: a run with an idle warm-up tick and
two active ticks has a rate series of length two, and the first nonzero
tick resets startTime while appending. -/
theorem rate_series_counts_nonzero_ticks_witness :
    initReporter.prevMessageCount = 0 ∧ (5 : Nat) ≠ 0 ∧
    ((reporterRun initReporter [(1, 0), (2, 5), (3, 9)]).messageRateTs.length =
       ([((1 : Nat), (0 : Nat)), (2, 5), (3, 9)].filter (fun t => t.2 != 0)).length ∧
     (reporterTick initReporter 2 5).start = 2 ∧
     (reporterTick initReporter 2 5).messageRateTs =
       initReporter.messageRateTs ++
         [(5 - initReporter.prevMessageCount, 2 - initReporter.prevTime)]) :=
  ⟨rfl, by decide,
    rate_series_counts_nonzero_ticks [(1, 0), (2, 5), (3, 9)] initReporter 2 5
      rfl (by decide)⟩

/-- Claim C9: both latency histograms are configured with the domain
[1, 90000000] microseconds at 3 significant decimal digits; recording
fails exactly for a value outside the configured domain; and in a worker
iteration whose command succeeded, a failing latency record is fatal, in
the fetch branch and in the acknowledge branch alike. -/
theorem histogram_domain_fatal (pcount : Int) (w : WorkerState)
    (sh : SharedState) (resp : List StreamEntries) (lat : Int)
    (id : StreamEntryID) (rest : List StreamEntryID) :
    readLatenciesConfig = ⟨1, 90000000, 3⟩ ∧
    ackLatenciesConfig = ⟨1, 90000000, 3⟩ ∧
    (∀ cfg : HistConfig, recordValue cfg lat = false ↔
      (lat < cfg.lowest ∨ cfg.highest < lat)) ∧
    (workerBranch pcount w false = .fetch →
      recordValue readLatenciesConfig lat = false →
      workerStep pcount w sh false false resp lat = .fatalErr) ∧
    (w.ids = id :: rest → workerBranch pcount w false = .ack →
      recordValue ackLatenciesConfig lat = false →
      workerStep pcount w sh false false resp lat = .fatalErr) := by
  refine ⟨rfl, rfl, ?_, ?_, ?_⟩
  · intro cfg
    unfold recordValue
    rw [Bool.and_eq_false_iff]
    simp only [decide_eq_false_iff_not, Int.not_le]
  · intro hb hrec
    rw [workerStep_eq_fetch pcount w sh false false resp lat hb]
    rw [if_neg (by simp), if_pos hrec]
  · intro hids hb hrec
    rw [workerStep_eq_ack pcount w sh false false resp lat id rest hids hb]
    rw [if_neg (by simp), if_pos hrec]

/-- Witness for claim C9: with max-pending 1 and a fresh worker, a zero
latency (below the domain of [1, 90000000]) recorded in the fetch branch
terminates the run. -/
theorem histogram_domain_fatal_witness :
    workerBranch 1 initWorker false = .fetch ∧
    recordValue readLatenciesConfig 0 = false ∧
    workerStep 1 initWorker ⟨0, 0⟩ false false [] 0 = .fatalErr :=
  ⟨by decide, by decide,
    (histogram_domain_fatal 1 initWorker ⟨0, 0⟩ [] 0 ⟨0, 0⟩ []).2.2.2.1
      (by decide) (by decide)⟩

/-- Claim C10: the fetch branch reads the first entry of the first batch
of the reply without checking the batch: when the reply is non-empty and
its first batch holds at least one entry the access yields that entry's
identifier, and for a non-empty reply whose first batch carries no entry
the access is out of bounds and the iteration panics. -/
theorem fetch_first_entry_access (pcount : Int) (w : WorkerState)
    (sh : SharedState) (lat : Int) (b : StreamEntries)
    (rest : List StreamEntries)
    (hb : workerBranch pcount w false = .fetch)
    (hrec : recordValue readLatenciesConfig lat = true) :
    (∀ e tl, b.entries = e :: tl → extractFirstID (b :: rest) = some e.id) ∧
    (b.entries = [] → extractFirstID (b :: rest) = none ∧
      workerStep pcount w sh false false (b :: rest) lat = .panicOOB) := by
  constructor
  · intro e tl he
    simp [extractFirstID, he]
  · intro he
    have hex : extractFirstID (b :: rest) = none := by
      simp [extractFirstID, he]
    refine ⟨hex, ?_⟩
    rw [workerStep_eq_fetch pcount w sh false false (b :: rest) lat hb]
    rw [if_neg (by simp), if_neg (by simp [hrec]), if_neg (by simp), hex]

/-- Witness for claim C10: a fresh worker receiving the reply whose single
batch is empty panics with an out-of-bounds access. -/
theorem fetch_first_entry_access_witness :
    workerBranch 1 initWorker false = .fetch ∧
    recordValue readLatenciesConfig 5 = true ∧
    extractFirstID [⟨[]⟩] = none ∧
    workerStep 1 initWorker ⟨0, 0⟩ false false [⟨[]⟩] 5 = .panicOOB := by
  refine ⟨by decide, by decide, ?_, ?_⟩
  · exact ((fetch_first_entry_access 1 initWorker ⟨0, 0⟩ 5 ⟨[]⟩ []
      (by decide) (by decide)).2 rfl).1
  · exact ((fetch_first_entry_access 1 initWorker ⟨0, 0⟩ 5 ⟨[]⟩ []
      (by decide) (by decide)).2 rfl).2

/-- Claim C3: at every reachable state totalAcked ≤ totalFetched; the read
counter counts exactly the fetched identifiers and the acked counter
exactly the acknowledged identifiers (one increment per message); and no
step of any worker decreases either counter. -/
theorem counters_invariant (n : Nat) (pcount : Int) (gs : GlobalState)
    (h : Reachable n pcount gs) :
    gs.shared.totalMessagesAcked ≤ gs.shared.totalMessagesRead ∧
    gs.shared.totalMessagesRead = sumBy gs.workers (fun w => w.fetchLog.length) ∧
    gs.shared.totalMessagesAcked = sumBy gs.workers (fun w => w.ackLog.length) ∧
    ∀ gs', GStep pcount gs gs' →
      gs.shared.totalMessagesRead ≤ gs'.shared.totalMessagesRead ∧
      gs.shared.totalMessagesAcked ≤ gs'.shared.totalMessagesAcked := by
  obtain ⟨hread, hacked, hfifo⟩ := reachable_inv n pcount gs h
  have hle : sumBy gs.workers (fun w => w.ackLog.length) ≤
      sumBy gs.workers (fun w => w.fetchLog.length) := by
    refine sumBy_le_sumBy gs.workers _ _ ?_
    intro w hw
    have hfw := hfifo w hw
    calc w.ackLog.length ≤ w.ackLog.length + w.ids.length := Nat.le_add_right _ _
    _ = (w.ackLog ++ w.ids).length := (List.length_append _ _).symm
    _ = w.fetchLog.length := by rw [hfw]
  refine ⟨by omega, hread, hacked, ?_⟩
  intro gs' hstep
  cases hstep with
  | step i hi so ce resp lat w' sh' hst =>
      rcases workerStep_next_cases pcount (gs.workers.get ⟨i, hi⟩) gs.shared
          so ce resp lat w' sh' hst with
        ⟨-, hsh', -, -⟩ | ⟨id, -, hsh', -, -⟩ | ⟨id, rest, -, -, hsh', -⟩ <;>
        subst hsh'
      · exact ⟨Nat.le_refl _, Nat.le_refl _⟩
      · exact ⟨Nat.le_succ _, Nat.le_refl _⟩
      · exact ⟨Nat.le_refl _, Nat.le_succ _⟩

/-- Witness for claim C3 at a concrete reachable state: one worker, one
message fetched and acknowledged. -/
theorem counters_invariant_witness :
    gs2.shared.totalMessagesAcked ≤ gs2.shared.totalMessagesRead ∧
    gs2.shared.totalMessagesRead = sumBy gs2.workers (fun w => w.fetchLog.length) ∧
    gs2.shared.totalMessagesAcked = sumBy gs2.workers (fun w => w.ackLog.length) ∧
    ∀ gs', GStep 1 gs2 gs' →
      gs2.shared.totalMessagesRead ≤ gs'.shared.totalMessagesRead ∧
      gs2.shared.totalMessagesAcked ≤ gs'.shared.totalMessagesAcked :=
  counters_invariant 1 1 gs2 gs2_reachable

/-- Claim C4 counterexample: the max-pending flag is a plain Go int, and
with a configured max-pending of -1 the bound fails already at the initial
state of a run: the fresh worker's empty window has length 0, which
exceeds -1, although no fetch was ever performed. -/
theorem window_bound_fails_negative_capacity :
    Reachable 1 (-1) (initGlobal 1) ∧ initWorker ∈ (initGlobal 1).workers ∧
    ¬((initWorker.ids.length : Int) ≤ -1) :=
  ⟨Reachable.init, by decide, by decide⟩

/-- Claim C4 (amended): for a nonnegative configured capacity, the fetch
branch is taken only when the window length is strictly below the
capacity, and at every reachable state every worker's pending window
length is at most the capacity. -/
theorem pending_window_bounded (n : Nat) (pcount : Int) (gs : GlobalState)
    (hp : 0 ≤ pcount) (h : Reachable n pcount gs) :
    (∀ w ∈ gs.workers, (w.ids.length : Int) ≤ pcount) ∧
    ∀ (w : WorkerState) (so : Bool), workerBranch pcount w so = .fetch →
      (w.ids.length : Int) < pcount :=
  ⟨windows_bounded n pcount gs hp h,
    fun w so hb => ((workerBranch_eq_fetch pcount w so).mp hb).2.1⟩

/-- Witness for claim C4 at a concrete reachable state. -/
theorem pending_window_bounded_witness :
    (0 : Int) ≤ 1 ∧
    ((∀ w ∈ gs1.workers, (w.ids.length : Int) ≤ 1) ∧
     ∀ (w : WorkerState) (so : Bool), workerBranch 1 w so = .fetch →
       (w.ids.length : Int) < 1) :=
  ⟨by decide, pending_window_bounded 1 1 gs1 (by decide) gs1_reachable⟩

/-- Claim C5: at every reachable state, for every worker the acknowledged
identifiers followed by the pending window equal the fetched identifiers
in order: identifiers enter the window at the tail in fetch order and are
acknowledged from the head, so the acknowledge sequence is a prefix of the
fetch sequence. -/
theorem ack_order_equals_fetch_order (n : Nat) (pcount : Int)
    (gs : GlobalState) (h : Reachable n pcount gs) :
    ∀ w ∈ gs.workers, w.ackLog ++ w.ids = w.fetchLog ∧
      ∃ tail, w.ackLog ++ tail = w.fetchLog := by
  intro w hw
  have hfifo := (reachable_inv n pcount gs h).2.2 w hw
  exact ⟨hfifo, w.ids, hfifo⟩

/-- Witness for claim C5 at a concrete reachable state. -/
theorem ack_order_equals_fetch_order_witness :
    w2.ackLog ++ w2.ids = w2.fetchLog ∧
    ∃ tail, w2.ackLog ++ tail = w2.fetchLog :=
  ack_order_equals_fetch_order 1 1 gs2 gs2_reachable w2 (by decide)

/-- Claim C6 counterexample: with configured max-pending 0, a fresh worker
whose source was never marked exhausted returns the terminal DONE at once:
the iteration returns DONE although done = false, refuting that DONE is
reached only with the pending window empty and the source exhausted. -/
theorem done_without_exhaustion :
    workerStep 0 initWorker ⟨0, 0⟩ false false [] 1 = .retDone ∧
    initWorker.done = false := by
  decide

/-- Claim C6 (amended): provided the configured max-pending is positive, a
worker iteration returns the terminal DONE exactly when no stop signal is
observed, the pending window is empty and the source was marked exhausted
(for max-pending ≤ 0 the worker instead returns DONE immediately with the
source not exhausted); a continuing iteration newly sets the exhausted
flag exactly when the fetch branch ran and the reply was empty; and once
the flag is set, the fetch branch is never taken again. -/
theorem done_state_characterization (pcount : Int) (w : WorkerState)
    (sh : SharedState) (so ce : Bool) (resp : List StreamEntries) (lat : Int)
    (hp : 0 < pcount) :
    (workerStep pcount w sh so ce resp lat = .retDone ↔
      so = false ∧ w.ids = [] ∧ w.done = true) ∧
    (∀ w' sh', workerStep pcount w sh so ce resp lat = .next w' sh' →
      ((w'.done = true ∧ w.done = false) ↔
        (workerBranch pcount w so = .fetch ∧ resp = []))) ∧
    (w.done = true → workerBranch pcount w so ≠ .fetch) := by
  refine ⟨⟨?_, ?_⟩, ?_, ?_⟩
  · intro h
    have hb := workerStep_retDone_branch pcount w sh so ce resp lat h
    have hf := (workerBranch_eq_finish pcount w so).mp hb
    have hids : w.ids = [] := List.length_eq_zero.mp hf.2.2
    cases hdw : w.done with
    | false =>
        exfalso
        exact hf.2.1 ⟨by rw [hids]; simpa using hp, hdw⟩
    | true => exact ⟨hf.1, hids, rfl⟩
  · rintro ⟨hso, hids, hdone⟩
    have hb : workerBranch pcount w so = .finish := by
      rw [workerBranch_eq_finish]
      exact ⟨hso, by simp [hdone], by simp [hids]⟩
    exact workerStep_eq_finish pcount w sh so ce resp lat hb
  · intro w' sh' hnext
    rcases workerStep_next_cases pcount w sh so ce resp lat w' sh' hnext with
      ⟨hw', -, hb, hlen⟩ | ⟨id, hw', -, hb, hx⟩ | ⟨id, rest, hids, hw', -, hb⟩
    · constructor
      · intro _
        exact ⟨hb, List.length_eq_zero.mp hlen⟩
      · intro _
        have hdone : w.done = false := ((workerBranch_eq_fetch pcount w so).mp hb).2.2
        rw [hw']
        exact ⟨rfl, hdone⟩
    · constructor
      · rintro ⟨hd1, hd2⟩
        rw [hw'] at hd1
        have hd1' : w.done = true := hd1
        rw [hd2] at hd1'
        exact Bool.noConfusion hd1'
      · rintro ⟨-, hresp⟩
        rw [hresp] at hx
        exact absurd hx (by simp [extractFirstID])
    · constructor
      · rintro ⟨hd1, hd2⟩
        rw [hw'] at hd1
        have hd1' : w.done = true := hd1
        rw [hd2] at hd1'
        exact Bool.noConfusion hd1'
      · rintro ⟨hbf, -⟩
        rw [hb] at hbf
        exact Branch.noConfusion hbf
  · intro hdone hb
    exact absurd ((workerBranch_eq_fetch pcount w so).mp hb).2.2 (by simp [hdone])

/-- Witness for the amended claim C6: with max-pending 1, a worker with an
empty window whose exhausted flag is set returns the terminal DONE. -/
theorem done_state_characterization_witness :
    (0 : Int) < 1 ∧
    workerStep 1 { ids := [], done := true, fetchLog := [], ackLog := [] }
      ⟨0, 0⟩ false false [] 1 = .retDone := by
  refine ⟨by decide, ?_⟩
  exact ((done_state_characterization 1
    { ids := [], done := true, fetchLog := [], ackLog := [] }
    ⟨0, 0⟩ false false [] 1 (by decide)).1).mpr ⟨rfl, rfl, rfl⟩

end StreamCG
